import Mathlib

/-!
Verification of the `tsgen` timestamp generator.

The development shallowly embeds the core of `tsgen.js`: the 48-bit
order-preserving encoder `toBase64Url48`, the call-rate telemetry `markCall`,
the acquisition controller (`createTSGen`, `get`, `requestPerf`, `startWorker`,
`startInternalLoop`, `stop`) and the refresher loops, together with the
worker-side duplicate encoder from `tsgen-worker.js`.  JavaScript numbers and
BigInts that hold integral values are embedded as `Int` / `Nat`; BigInt `&`
with the 48-bit mask is `% 2 ^ 48` on the Euclidean representative, and BigInt
division is truncated division `Int.tdiv`.

Cooperative JavaScript semantics: `get`, `requestPerf`, `startWorker`,
`startInternalLoop` and `stop` are synchronous functions on the closure state;
the internal refresher loop and the worker-event handlers run as separate
cooperative steps, each taking the clock readings it performs as arguments.
-/

namespace TSGen

/-- The 64-character ASCII-sorted alphabet `ASCII_BASE64_ALPHA` from tsgen.js. -/
def ASCII_BASE64_ALPHA : String :=
  "-0123456789ABCDEFGHIJKLMNOPQRSTUVWXYZ_abcdefghijklmnopqrstuvwxyz"

/-- The alphabet as a character list; `ASCII_BASE64_ALPHA[idx]` is `alphaList.getD idx`. -/
def alphaList : List Char := ASCII_BASE64_ALPHA.data

/-- One 6-bit group of the masked value: `(n >> shift) & 0x3f` with `shift = 42 - 6*i`
for output position `i` (most significant group first), as in the loop of
`toBase64Url48` in tsgen.js. -/
def digit48 (n : Nat) (i : Nat) : Nat := (n >>> (42 - 6 * i)) &&& 63

/-- The 48-bit mask applied by `n &= (1n << 48n) - 1n`: on a (possibly negative)
integer, BigInt bitwise-and with the all-ones mask yields the value modulo `2 ^ 48`,
which is `Int.emod` (Lean's `%` on `Int`) followed by `toNat`. -/
def masked48 (v : Int) : Nat := (v % (2 ^ 48 : Int)).toNat

/-- `toBase64Url48` from tsgen.js: accept an integer (Number or BigInt), mask to
48 bits, and emit eight 6-bit groups, most significant first, through the alphabet. -/
def toBase64Url48 (v : Int) : String :=
  String.mk ((List.range 8).map (fun i => alphaList.getD (digit48 (masked48 v) i) ' '))

/-- Modelled from the spec: `decode_ordinal` is named in §8 of the spec but has no
implementation in the repository; following §4.1/§8 it maps each character of an
encoded string back to its ordinal in the 64-symbol alphabet and reassembles the
base-64 value, most significant digit first. -/
def decodeOrdinal (s : String) : Nat :=
  s.data.foldl (fun acc c => acc * 64 + alphaList.indexOf c) 0

/-- The trailing `w` base-64 digits of `n`, most significant first (proof device
for relating the encoder's 6-bit groups to numeric order). -/
def digitsAux (n : Nat) : Nat → List Nat
  | 0 => []
  | w + 1 => n / 64 ^ w % 64 :: digitsAux n w

/-- The alphabet constant re-declared inside tsgen-worker.js ("Same alphabet as main"). -/
def workerAlpha : String :=
  "-0123456789ABCDEFGHIJKLMNOPQRSTUVWXYZ_abcdefghijklmnopqrstuvwxyz"

/-- `toBase64Url48` as re-implemented locally in tsgen-worker.js: mask to 48 bits,
eight 6-bit groups through `workerAlpha`, most significant first. -/
def workerToBase64Url48 (v : Int) : String :=
  String.mk ((List.range 8).map
    (fun i => workerAlpha.data.getD (((v % (2 ^ 48 : Int)).toNat >>> (42 - 6 * i)) &&& 63) ' '))

/-- The `prefer` configuration value. -/
inductive Prefer
  | auto
  | basic
  | internal
  | worker
deriving DecidableEq

/-- The merged configuration `cfg` of `createTSGen` (defaults overridden by options).
JavaScript numbers holding the thresholds are embedded as integers. -/
structure Config where
  thresholdCalls : Int
  thresholdWindowUs : Int
  perfCooldownMs : Int
  prefer : Prefer
deriving DecidableEq

/-- `defaultOptions` from tsgen.js. -/
def defaultOptions : Config :=
  { thresholdCalls := 5, thresholdWindowUs := 5, perfCooldownMs := 1000, prefer := .auto }

/-- The telemetry state: `callsInWindow` and `windowStartNano`. -/
structure RateState where
  callsInWindow : Nat
  windowStartNano : Nat
deriving DecidableEq

/-- `markCall` from tsgen.js: increment the counter, compute the elapsed time in
microseconds from the monotonic nanosecond clock (BigInt division truncates), and
on window expiry reset the window and report whether the threshold was reached. -/
def markCall (cfg : Config) (st : RateState) (nowN : Nat) : Bool × RateState :=
  let calls := st.callsInWindow + 1
  let elapsedUs : Int := Int.tdiv ((nowN : Int) - (st.windowStartNano : Int)) 1000
  if elapsedUs ≥ cfg.thresholdWindowUs then
    (decide ((calls : Int) ≥ cfg.thresholdCalls), { callsInWindow := 0, windowStartNano := nowN })
  else
    (false, { st with callsInWindow := calls })

/-- Closure state of one `createTSGen` instance. `internalController` is `none` when
no internal-loop controller object has been allocated and `some stopRequested`
otherwise; `workerAlive` models `worker !== null`. The event handlers registered
on a spawned worker stay attached even after the closure variable is nulled. -/
structure GenState where
  cfg : Config
  cached : String
  lastMs : Nat
  rate : RateState
  internalRunning : Bool
  internalController : Option Bool
  internalLocalLastMs : Nat
  lastHighActivityAt : Nat
  workerRunning : Bool
  workerAlive : Bool

/-- Runtime environment facts: whether `worker_threads` loaded (`WorkerCtor`)
and whether `new Worker(...)` succeeds when attempted. -/
structure Env where
  workerAvailable : Bool
  spawnOk : Bool

/-- One joint reading of the platform clocks: `Date.now()` milliseconds and the
monotonic `process.hrtime.bigint()` nanoseconds. -/
structure ClockSample where
  nowMs : Nat
  nowNano : Nat

/-- `createTSGen` from tsgen.js: merge options (already merged in `cfg` here),
seed the cache with the encoding of the current time, and start with no
background refresher of either kind. -/
def createTSGen (cfg : Config) (clk : ClockSample) : GenState :=
  { cfg := cfg
    cached := toBase64Url48 (clk.nowMs : Int)
    lastMs := clk.nowMs
    rate := { callsInWindow := 0, windowStartNano := clk.nowNano }
    internalRunning := false
    internalController := none
    internalLocalLastMs := 0
    lastHighActivityAt := 0
    workerRunning := false
    workerAlive := false }

/-- `createTSGen` with an explicit error channel: the function body of
`createTSGen` in tsgen.js contains no validation and no throw path (the only
configuration check in the module is the module-load alphabet-length check),
so construction always succeeds. -/
def createTSGenE (cfg : Config) (clk : ClockSample) : Except String GenState :=
  Except.ok (createTSGen cfg clk)

/-- The module-load check `if (ASCII_BASE64_ALPHA.length !== 64) throw ...`
from tsgen.js. -/
def moduleAlphaCheck : Except String Unit :=
  if ASCII_BASE64_ALPHA.length ≠ 64 then Except.error "Alphabet length must be 64"
  else Except.ok ()

/-- `startInternalLoop` from tsgen.js, up to the loop's first yield point: set the
running flag and the activity timestamp, allocate a controller with
`stopRequested = false`, and pre-seed `localLastMs` and the cache (the async
body runs synchronously until its first `await`). -/
def startInternalLoop (st : GenState) (clk : ClockSample) : GenState :=
  if st.internalRunning then st
  else
    { st with
      internalRunning := true
      lastHighActivityAt := clk.nowMs
      internalController := some false
      internalLocalLastMs := clk.nowMs
      cached := toBase64Url48 (clk.nowMs : Int) }

/-- One resumed iteration of the internal refresher loop: exit if stop was
requested (clearing the running flag); otherwise write the cache exactly on a
millisecond-boundary change, then self-request stop when idle longer than
`perfCooldownMs`. A step is a no-op when no controller was ever allocated. -/
def internalLoopStep (st : GenState) (clk : ClockSample) : GenState :=
  match st.internalController with
  | none => st
  | some stopReq =>
    if stopReq then { st with internalRunning := false }
    else
      let st1 :=
        if clk.nowMs ≠ st.internalLocalLastMs then
          { st with
            internalLocalLastMs := clk.nowMs
            cached := toBase64Url48 (clk.nowMs : Int) }
        else st
      if (clk.nowMs : Int) - (st1.lastHighActivityAt : Int) > st1.cfg.perfCooldownMs then
        { st1 with internalController := some true }
      else st1

/-- `stopInternalLoop` from tsgen.js: request stop on the controller, if any,
and clear the running flag. -/
def stopInternalLoop (st : GenState) : GenState :=
  let st1 :=
    match st.internalController with
    | some _ => { st with internalController := some true }
    | none => st
  { st1 with internalRunning := false }

/-- `stopWorker` from tsgen.js: terminate and drop the worker (best-effort) and
clear the running flag. -/
def stopWorker (st : GenState) : GenState :=
  { st with workerAlive := false, workerRunning := false }

/-- `startWorker` from tsgen.js: refresh activity if already running; fall back to
the internal loop when `worker_threads` is unavailable or spawning throws;
otherwise mark the worker running and live. -/
def startWorker (env : Env) (st : GenState) (clk : ClockSample) : GenState :=
  if st.workerRunning then { st with lastHighActivityAt := clk.nowMs }
  else if env.workerAvailable = false then startInternalLoop st clk
  else
    let st1 := { st with lastHighActivityAt := clk.nowMs }
    if env.spawnOk then { st1 with workerAlive := true, workerRunning := true }
    else startInternalLoop st1 clk

/-- A message posted by the worker: the handler only consumes string messages
(the worker's error report is an object, not a string). -/
inductive WorkerMsg
  | str (s : String)
  | nonString

/-- The `worker.on('message', ...)` handler: on a string message overwrite the
cache, and in all cases refresh the activity timestamp. Like its source, it is
unconditional: it runs whenever the event is delivered, with no guard on the
controller's state. -/
def onWorkerMessage (st : GenState) (msg : WorkerMsg) (nowDate : Nat) : GenState :=
  match msg with
  | .str s => { st with cached := s, lastHighActivityAt := nowDate }
  | .nonString => { st with lastHighActivityAt := nowDate }

/-- The `worker.on('error', ...)` handler: stop the worker and fall back to the
internal loop. Unconditional, like its source. -/
def onWorkerError (st : GenState) (clk : ClockSample) : GenState :=
  startInternalLoop (stopWorker st) clk

/-- The `worker.on('exit', code)` handler: clear the worker state and, on a
non-zero exit code, fall back to the internal loop. Unconditional, like its
source — in particular it also fires, with code 1, after a deliberate
`worker.terminate()`. -/
def onWorkerExit (st : GenState) (code : Nat) (clk : ClockSample) : GenState :=
  let st1 := { st with workerRunning := false, workerAlive := false }
  if code ≠ 0 then startInternalLoop st1 clk else st1

/-- `requestPerf` from tsgen.js: refresh activity, then start nothing under
`prefer = 'basic'`, the requested strategy under `'worker'`/`'internal'`, and
under `'auto'` the worker when available, else the internal loop. -/
def requestPerf (env : Env) (st : GenState) (clk : ClockSample) : GenState :=
  let st1 := { st with lastHighActivityAt := clk.nowMs }
  match st1.cfg.prefer with
  | .basic => st1
  | .worker => startWorker env st1 clk
  | .internal => startInternalLoop st1 clk
  | .auto =>
    if env.workerAvailable then startWorker env st1 clk else startInternalLoop st1 clk

/-- `basicGet` from tsgen.js: encode the current time directly. -/
def basicGet (clk : ClockSample) : String := toBase64Url48 (clk.nowMs : Int)

/-- `get` from tsgen.js: on the hot path (worker or internal loop running) return
the cached string after refreshing activity and telemetry; otherwise record the
call, request promotion if the threshold fired, and return the directly
computed value. -/
def get (env : Env) (st : GenState) (clk : ClockSample) : String × GenState :=
  if st.workerRunning then
    (st.cached,
      { st with lastHighActivityAt := clk.nowMs, rate := (markCall st.cfg st.rate clk.nowNano).2 })
  else if st.internalRunning then
    (st.cached,
      { st with lastHighActivityAt := clk.nowMs, rate := (markCall st.cfg st.rate clk.nowNano).2 })
  else
    let mc := markCall st.cfg st.rate clk.nowNano
    let st1 := { st with rate := mc.2 }
    let st2 := if mc.1 then requestPerf env st1 clk else st1
    (basicGet clk, st2)

/-- `stop` from tsgen.js: stop the internal loop, then the worker. -/
def stop (st : GenState) : GenState := stopWorker (stopInternalLoop st)

/-- Iterated `get`: the controller state after a sequence of calls, one clock
sample per call. -/
def runGets (env : Env) (st : GenState) (clks : List ClockSample) : GenState :=
  clks.foldl (fun s c => (get env s c).2) st

/-- Iterated `markCall`: the list of returned booleans and the final telemetry
state over a sequence of monotonic-clock readings. -/
def runMarkCalls (cfg : Config) (st : RateState) : List Nat → List Bool × RateState
  | [] => ([], st)
  | t :: ts =>
    let mc := markCall cfg st t
    let rest := runMarkCalls cfg mc.2 ts
    (mc.1 :: rest.1, rest.2)

/-- Iterated internal-loop refresher: the states traversed (initial state first)
over a sequence of clock samples. -/
def runInternalLoop (st : GenState) (clks : List ClockSample) : List GenState :=
  clks.scanl internalLoopStep st

/-- The millisecond-boundary detection step of the worker loop in
tsgen-worker.js: on a change post the freshly encoded timestamp, otherwise
yield and post nothing. -/
def workerLoopStep (lastMs nowMs : Nat) : Nat × Option String :=
  if nowMs ≠ lastMs then (nowMs, some (workerToBase64Url48 (nowMs : Int)))
  else (lastMs, none)

/-- A promoted-path example state used by concrete witnesses: the internal loop
runs with a freshly seeded cache for millisecond 5. -/
def exInternalState : GenState :=
  { cfg := defaultOptions
    cached := toBase64Url48 ((5 : Nat) : Int)
    lastMs := 5
    rate := { callsInWindow := 0, windowStartNano := 0 }
    internalRunning := true
    internalController := some false
    internalLocalLastMs := 5
    lastHighActivityAt := 5
    workerRunning := false
    workerAlive := false }

/-- A worker-backed example state used by concrete witnesses. -/
def exWorkerState : GenState :=
  { cfg := defaultOptions
    cached := toBase64Url48 ((7 : Nat) : Int)
    lastMs := 7
    rate := { callsInWindow := 0, windowStartNano := 0 }
    internalRunning := false
    internalController := none
    internalLocalLastMs := 0
    lastHighActivityAt := 7
    workerRunning := true
    workerAlive := true }

/-! ## Theorems: the alphabet and the digits -/

theorem alphaList_length : alphaList.length = 64 := rfl

theorem and63_eq_mod (n : Nat) : n &&& 63 = n % 64 :=
  Nat.and_pow_two_sub_one_eq_mod n 6

theorem digit48_lt (n i : Nat) : digit48 n i < 64 := by
  unfold digit48
  rw [and63_eq_mod]
  exact Nat.mod_lt _ (by norm_num)

theorem indexOf_alpha_getD : ∀ d : Fin 64, alphaList.indexOf (alphaList.getD d.val ' ') = d.val := by
  decide

theorem alpha_getD_strictMono :
    ∀ a b : Fin 64, a.val < b.val → alphaList.getD a.val ' ' < alphaList.getD b.val ' ' := by
  decide

theorem alpha_getD_mem (d : Nat) (hd : d < 64) : alphaList.getD d ' ' ∈ alphaList := by
  rw [List.getD_eq_getElem alphaList ' ' (alphaList_length ▸ hd)]
  exact List.getElem_mem _

/-- The 6-bit groups are the base-64 digits of the masked value. -/
theorem digit48_eq_div_mod (n i : Nat) (h : i ≤ 7) :
    digit48 n i = n / 64 ^ (7 - i) % 64 := by
  unfold digit48
  rw [and63_eq_mod, Nat.shiftRight_eq_div_pow]
  have h42 : 42 - 6 * i = 6 * (7 - i) := by omega
  rw [h42, pow_mul]
  norm_num

/-! ## Theorems: round-trip of the decoder over the encoder -/

theorem masked48_ofNat (n : Nat) : masked48 (n : Int) = n % 2 ^ 48 := by
  unfold masked48
  omega

theorem masked48_lt (v : Int) : masked48 v < 2 ^ 48 := by
  unfold masked48
  omega

theorem toBase64Url48_data (v : Int) :
    (toBase64Url48 v).data
      = (List.range 8).map (fun i => alphaList.getD (digit48 (masked48 v) i) ' ') := rfl

theorem decodeOrdinal_toBase64Url48 (n : Nat) (h : n < 2 ^ 48) :
    decodeOrdinal (toBase64Url48 (n : Int)) = n := by
  have hm : masked48 (n : Int) = n := by rw [masked48_ofNat]; omega
  have hidx : ∀ i : Nat, i ≤ 7 →
      alphaList.indexOf (alphaList.getD (digit48 n i) ' ') = digit48 n i := fun i _ =>
    indexOf_alpha_getD ⟨digit48 n i, digit48_lt n i⟩
  have hrange : List.range 8 = [0, 1, 2, 3, 4, 5, 6, 7] := rfl
  unfold decodeOrdinal
  rw [toBase64Url48_data, hm, hrange]
  simp only [List.map_cons, List.map_nil, List.foldl_cons, List.foldl_nil]
  rw [hidx 0 (by omega), hidx 1 (by omega), hidx 2 (by omega), hidx 3 (by omega),
      hidx 4 (by omega), hidx 5 (by omega), hidx 6 (by omega), hidx 7 (by omega)]
  rw [digit48_eq_div_mod n 0 (by omega), digit48_eq_div_mod n 1 (by omega),
      digit48_eq_div_mod n 2 (by omega), digit48_eq_div_mod n 3 (by omega),
      digit48_eq_div_mod n 4 (by omega), digit48_eq_div_mod n 5 (by omega),
      digit48_eq_div_mod n 6 (by omega), digit48_eq_div_mod n 7 (by omega)]
  norm_num
  omega

/-! ## Theorems: lexicographic order of encoded strings follows numeric order -/

theorem toBase64Url48_data_digits (v : Int) :
    (toBase64Url48 v).data
      = (digitsAux (masked48 v) 8).map (fun d => alphaList.getD d ' ') := by
  rw [toBase64Url48_data]
  have hrange : List.range 8 = [0, 1, 2, 3, 4, 5, 6, 7] := rfl
  rw [hrange]
  simp only [digitsAux, List.map_cons, List.map_nil]
  rw [digit48_eq_div_mod _ 0 (by omega), digit48_eq_div_mod _ 1 (by omega),
      digit48_eq_div_mod _ 2 (by omega), digit48_eq_div_mod _ 3 (by omega),
      digit48_eq_div_mod _ 4 (by omega), digit48_eq_div_mod _ 5 (by omega),
      digit48_eq_div_mod _ 6 (by omega), digit48_eq_div_mod _ 7 (by omega)]

theorem mod_pow_succ_split (n w : Nat) :
    n % 64 ^ (w + 1) = 64 ^ w * (n / 64 ^ w % 64) + n % 64 ^ w := by
  rw [pow_succ, Nat.mod_mul]
  omega

/-- Strictly ordered digit lists map to lexicographically ordered character lists:
if the trailing `w` digits of `n₁` are numerically below those of `n₂`, the mapped
character lists are in `List.Lex (· < ·)`. -/
theorem digitsAux_lex (w : Nat) :
    ∀ n1 n2 : Nat, n1 % 64 ^ w < n2 % 64 ^ w →
      List.Lex (· < ·) ((digitsAux n1 w).map (fun d => alphaList.getD d ' '))
        ((digitsAux n2 w).map (fun d => alphaList.getD d ' ')) := by
  induction w with
  | zero => intro n1 n2 h; simp [Nat.mod_one] at h
  | succ w ih =>
    intro n1 n2 h
    have h1 := mod_pow_succ_split n1 w
    have h2 := mod_pow_succ_split n2 w
    have hr1 : n1 % 64 ^ w < 64 ^ w := Nat.mod_lt _ (by positivity)
    have hr2 : n2 % 64 ^ w < 64 ^ w := Nat.mod_lt _ (by positivity)
    have ha1 : n1 / 64 ^ w % 64 < 64 := Nat.mod_lt _ (by norm_num)
    have ha2 : n2 / 64 ^ w % 64 < 64 := Nat.mod_lt _ (by norm_num)
    rcases lt_trichotomy (n1 / 64 ^ w % 64) (n2 / 64 ^ w % 64) with hlt | heq | hgt
    · exact List.Lex.rel (alpha_getD_strictMono ⟨_, ha1⟩ ⟨_, ha2⟩ hlt)
    · simp only [digitsAux, List.map_cons]
      rw [heq]
      have hbd : 64 ^ w * (n1 / 64 ^ w % 64) = 64 ^ w * (n2 / 64 ^ w % 64) := by rw [heq]
      refine List.Lex.cons (ih n1 n2 ?_)
      omega
    · exfalso
      have : 64 ^ w * (n2 / 64 ^ w % 64) + 64 ^ w ≤ 64 ^ w * (n1 / 64 ^ w % 64) := by
        have : n2 / 64 ^ w % 64 + 1 ≤ n1 / 64 ^ w % 64 := hgt
        calc 64 ^ w * (n2 / 64 ^ w % 64) + 64 ^ w
            = 64 ^ w * (n2 / 64 ^ w % 64 + 1) := by ring
          _ ≤ 64 ^ w * (n1 / 64 ^ w % 64) := Nat.mul_le_mul_left _ this
      omega

/-- Core monotonicity of the encoder: over the 48-bit domain, numeric order becomes
lexicographic string order. -/
theorem toBase64Url48_lt_toBase64Url48 {n1 n2 : Nat} (h12 : n1 < n2) (h2 : n2 < 2 ^ 48) :
    toBase64Url48 (n1 : Int) < toBase64Url48 (n2 : Int) := by
  rw [String.lt_iff_toList_lt]
  show List.Lex (· < ·) (toBase64Url48 (n1 : Int)).data (toBase64Url48 (n2 : Int)).data
  rw [toBase64Url48_data_digits, toBase64Url48_data_digits]
  apply digitsAux_lex
  have e1 : masked48 (n1 : Int) = n1 := by rw [masked48_ofNat]; omega
  have e2 : masked48 (n2 : Int) = n2 := by rw [masked48_ofNat]; omega
  rw [e1, e2]
  have h64 : (64 : Nat) ^ 8 = 2 ^ 48 := by norm_num
  rw [h64, Nat.mod_eq_of_lt (by omega), Nat.mod_eq_of_lt h2]
  exact h12

theorem toBase64Url48_le_toBase64Url48 {n1 n2 : Nat} (h12 : n1 ≤ n2) (h2 : n2 < 2 ^ 48) :
    toBase64Url48 (n1 : Int) ≤ toBase64Url48 (n2 : Int) := by
  rcases Nat.lt_or_ge n1 n2 with h | h
  · exact le_of_lt (toBase64Url48_lt_toBase64Url48 h h2)
  · have : n1 = n2 := le_antisymm h12 h
    rw [this]

/-! ## Theorems: shape of the encoder output -/

theorem toBase64Url48_length (v : Int) : (toBase64Url48 v).length = 8 := by
  show (toBase64Url48 v).data.length = 8
  rw [toBase64Url48_data]
  simp

theorem toBase64Url48_mem_alpha (v : Int) :
    ∀ c ∈ (toBase64Url48 v).data, c ∈ alphaList := by
  intro c hc
  rw [toBase64Url48_data] at hc
  rcases List.mem_map.mp hc with ⟨i, _, hi⟩
  rw [← hi]
  exact alpha_getD_mem _ (digit48_lt _ _)

theorem toBase64Url48_mask (v : Int) : toBase64Url48 v = toBase64Url48 (v % 2 ^ 48) := by
  unfold toBase64Url48 masked48
  rw [Int.emod_emod_of_dvd v (dvd_refl _)]

theorem workerToBase64Url48_eq_main (v : Int) : workerToBase64Url48 v = toBase64Url48 v := rfl

theorem workerAlpha_eq_main : workerAlpha = ASCII_BASE64_ALPHA := rfl

/-! ## Theorems: the call-rate monitor -/

theorem tdiv_ofNat (a b : Nat) : Int.tdiv (a : Int) (b : Int) = ((a / b : Nat) : Int) := rfl

theorem tdiv_ofNat_1000 (a : Nat) : Int.tdiv (a : Int) 1000 = ((a / 1000 : Nat) : Int) := rfl

/-- Under a monotonic clock reading, `markCall` is the window-expiry conditional on
the truncated microsecond difference. -/
theorem markCall_elapsed (cfg : Config) (st : RateState) (nowN : Nat)
    (hmono : st.windowStartNano ≤ nowN) :
    markCall cfg st nowN =
      if (((nowN - st.windowStartNano) / 1000 : Nat) : Int) ≥ cfg.thresholdWindowUs then
        (decide (((st.callsInWindow + 1 : Nat) : Int) ≥ cfg.thresholdCalls),
          { callsInWindow := 0, windowStartNano := nowN })
      else (false, { st with callsInWindow := st.callsInWindow + 1 }) := by
  have hsub : (nowN : Int) - (st.windowStartNano : Int)
      = ((nowN - st.windowStartNano : Nat) : Int) := by omega
  simp only [markCall]
  rw [hsub, tdiv_ofNat_1000]

/-- A burst whose every call sees less than the threshold window elapsed returns
`false` throughout, never resets the window start, and only accumulates the
counter. -/
theorem runMarkCalls_burst (cfg : Config) (ts : List Nat) :
    ∀ st : RateState,
      (∀ t ∈ ts, st.windowStartNano ≤ t ∧
        (((t - st.windowStartNano) / 1000 : Nat) : Int) < cfg.thresholdWindowUs) →
      (runMarkCalls cfg st ts).1 = List.replicate ts.length false ∧
      (runMarkCalls cfg st ts).2.windowStartNano = st.windowStartNano ∧
      (runMarkCalls cfg st ts).2.callsInWindow = st.callsInWindow + ts.length := by
  induction ts with
  | nil => intro st _; simp [runMarkCalls]
  | cons t ts ih =>
    intro st h
    have ht := h t (List.mem_cons_self t ts)
    have hmc : markCall cfg st t = (false, { st with callsInWindow := st.callsInWindow + 1 }) := by
      rw [markCall_elapsed cfg st t ht.1, if_neg (not_le.mpr ht.2)]
    obtain ⟨e1, e2, e3⟩ := ih { st with callsInWindow := st.callsInWindow + 1 }
      (fun u hu => h u (List.mem_cons_of_mem _ hu))
    refine ⟨?_, ?_, ?_⟩
    · simp [runMarkCalls, hmc, e1, List.replicate_succ]
    · simp [runMarkCalls, hmc, e2]
    · simp [runMarkCalls, hmc, e3]
      omega

/-- C4: `markCall` (the spec's `record_call`) increments the call counter, reads
the monotonic elapsed time since window start, and exactly when the elapsed
microseconds reach `thresholdWindowUs` evaluates `counter ≥ thresholdCalls`,
resets counter and window start, and returns that evaluation; otherwise it
returns `false` without resetting, so a burst that completes before the window
elapses never triggers, regardless of count. -/
theorem markCall_implements_rate_window :
    (∀ cfg st nowN, st.windowStartNano ≤ nowN →
      ((((nowN - st.windowStartNano) / 1000 : Nat) : Int) ≥ cfg.thresholdWindowUs →
        markCall cfg st nowN
          = (decide (((st.callsInWindow + 1 : Nat) : Int) ≥ cfg.thresholdCalls),
              { callsInWindow := 0, windowStartNano := nowN })) ∧
      ((((nowN - st.windowStartNano) / 1000 : Nat) : Int) < cfg.thresholdWindowUs →
        markCall cfg st nowN = (false, { st with callsInWindow := st.callsInWindow + 1 }))) ∧
    (∀ cfg st ts,
      (∀ t ∈ ts, st.windowStartNano ≤ t ∧
        (((t - st.windowStartNano) / 1000 : Nat) : Int) < cfg.thresholdWindowUs) →
      (runMarkCalls cfg st ts).1 = List.replicate ts.length false ∧
      (runMarkCalls cfg st ts).2.windowStartNano = st.windowStartNano ∧
      (runMarkCalls cfg st ts).2.callsInWindow = st.callsInWindow + ts.length) := by
  refine ⟨fun cfg st nowN hmono => ⟨fun hge => ?_, fun hlt => ?_⟩,
    fun cfg st ts h => runMarkCalls_burst cfg ts st h⟩
  · rw [markCall_elapsed cfg st nowN hmono, if_pos hge]
  · rw [markCall_elapsed cfg st nowN hmono, if_neg (not_le.mpr hlt)]

/-- Witness for C4 at concrete inputs: one expired-window call on the default
configuration, and a three-call burst inside the window. -/
theorem markCall_implements_rate_window_witness :
    markCall defaultOptions ⟨0, 0⟩ 10000
      = (decide (((0 + 1 : Nat) : Int) ≥ defaultOptions.thresholdCalls), ⟨0, 10000⟩) ∧
    (runMarkCalls defaultOptions ⟨0, 0⟩ [100, 200, 300]).1 = List.replicate 3 false := by
  constructor
  · exact (markCall_implements_rate_window.1 defaultOptions ⟨0, 0⟩ 10000 (by decide)).1 (by decide)
  · exact (markCall_implements_rate_window.2 defaultOptions ⟨0, 0⟩ [100, 200, 300] (by decide)).1

/-! ## Claim theorems: the encoder -/

/-- C1: the encoder is injective and strictly order-preserving over the 48-bit
domain: decoding the ordinals of `toBase64Url48 n` round-trips to `n`, and
numeric order of 48-bit inputs becomes strict lexicographic order of the
encoded strings. -/
theorem encoder_roundtrip_and_strict_mono :
    ∀ n : Nat, n < 2 ^ 48 →
      decodeOrdinal (toBase64Url48 (n : Int)) = n ∧
      ∀ n2 : Nat, n < n2 → n2 < 2 ^ 48 →
        toBase64Url48 (n : Int) < toBase64Url48 (n2 : Int) :=
  fun n hn =>
    ⟨decodeOrdinal_toBase64Url48 n hn,
     fun _ h12 h2 => toBase64Url48_lt_toBase64Url48 h12 h2⟩

/-- Witness for C1 at concrete inputs. -/
theorem encoder_roundtrip_and_strict_mono_witness :
    decodeOrdinal (toBase64Url48 ((123456 : Nat) : Int)) = 123456 ∧
    toBase64Url48 ((123456 : Nat) : Int) < toBase64Url48 ((123457 : Nat) : Int) :=
  ⟨(encoder_roundtrip_and_strict_mono 123456 (by norm_num)).1,
   (encoder_roundtrip_and_strict_mono 123456 (by norm_num)).2 123457 (by norm_num) (by norm_num)⟩

/-- C2: the encoder is total — every integer input is masked to its low 48 bits,
no error is possible, and the result is exactly 8 characters, all drawn from
the 64-symbol alphabet. -/
theorem encoder_total_eight_chars :
    ∀ v : Int,
      (toBase64Url48 v).length = 8 ∧
      (∀ c ∈ (toBase64Url48 v).data, c ∈ ASCII_BASE64_ALPHA.data) ∧
      toBase64Url48 v = toBase64Url48 (v % 2 ^ 48) ∧
      ASCII_BASE64_ALPHA.length = 64 :=
  fun v =>
    ⟨toBase64Url48_length v, toBase64Url48_mem_alpha v, toBase64Url48_mask v, rfl⟩

/-- C10: the encoder duplicated inside tsgen-worker.js is extensionally equal to
the main module's encoder — identical alphabet and identical 8-character output
on every integer input. -/
theorem worker_encoder_extensionally_equal :
    (∀ v : Int, workerToBase64Url48 v = toBase64Url48 v) ∧
    workerAlpha = ASCII_BASE64_ALPHA ∧
    (∀ v : Int, (workerToBase64Url48 v).length = 8) :=
  ⟨workerToBase64Url48_eq_main, workerAlpha_eq_main,
   fun v => (workerToBase64Url48_eq_main v) ▸ toBase64Url48_length v⟩

/-! ## Claim theorems: construction -/

/-- C9 counterexample: construction does not fail fast on non-positive
thresholds — `createTSGen` accepts `thresholdCalls = 0` and
`thresholdWindowUs = -1` without error and stores them verbatim. -/
theorem construction_accepts_invalid_config :
    (createTSGenE
        { thresholdCalls := 0, thresholdWindowUs := -1, perfCooldownMs := 1000, prefer := .basic }
        ⟨0, 0⟩).isOk = true ∧
    (createTSGen
        { thresholdCalls := 0, thresholdWindowUs := -1, perfCooldownMs := 1000, prefer := .basic }
        ⟨0, 0⟩).cfg.thresholdCalls = 0 :=
  ⟨rfl, rfl⟩

/-- C9 amended: the only configuration validation in the module is the
module-load alphabet-length check, which passes for the fixed 64-character
alphabet; `createTSGen` itself performs no validation and accepts every
configuration, including non-positive thresholds, without error. -/
theorem construction_validation_is_alphabet_only :
    moduleAlphaCheck = Except.ok () ∧
    ASCII_BASE64_ALPHA.length = 64 ∧
    ∀ cfg clk, (createTSGenE cfg clk).isOk = true :=
  ⟨rfl, rfl, fun _ _ => rfl⟩

/-! ## Theorems: starting and falling back -/

theorem startInternalLoop_internalRunning (st : GenState) (clk : ClockSample) :
    (startInternalLoop st clk).internalRunning = true := by
  unfold startInternalLoop
  split
  · next h => exact h
  · rfl

theorem startInternalLoop_workerRunning (st : GenState) (clk : ClockSample) :
    (startInternalLoop st clk).workerRunning = st.workerRunning := by
  unfold startInternalLoop
  split <;> rfl

theorem startInternalLoop_workerAlive (st : GenState) (clk : ClockSample) :
    (startInternalLoop st clk).workerAlive = st.workerAlive := by
  unfold startInternalLoop
  split <;> rfl

theorem startInternalLoop_cfg (st : GenState) (clk : ClockSample) :
    (startInternalLoop st clk).cfg = st.cfg := by
  unfold startInternalLoop
  split <;> rfl

/-- C6: when the worker strategy cannot be started (worker primitive unavailable,
spawn failure) or dies after starting (error event, exit with non-zero status),
the controller ends with the cooperative internal loop running and no worker,
and `get` keeps serving the cached value on the promoted internal path with no
error channel. -/
theorem worker_failure_falls_back_to_internal_loop :
    (∀ env st clk, env.workerAvailable = false → st.workerRunning = false →
      (startWorker env st clk).internalRunning = true ∧
      (startWorker env st clk).workerRunning = false) ∧
    (∀ env st clk, env.spawnOk = false → st.workerRunning = false →
      (startWorker env st clk).internalRunning = true ∧
      (startWorker env st clk).workerRunning = false) ∧
    (∀ st clk, st.workerAlive = true →
      (onWorkerError st clk).internalRunning = true ∧
      (onWorkerError st clk).workerRunning = false) ∧
    (∀ st clk code, st.workerAlive = true → code ≠ 0 →
      (onWorkerExit st code clk).internalRunning = true ∧
      (onWorkerExit st code clk).workerRunning = false) ∧
    (∀ env st clk, st.internalRunning = true → st.workerRunning = false →
      (get env st clk).1 = st.cached) := by
  refine ⟨fun env st clk hav hw => ?_, fun env st clk hsp hw => ?_,
    fun st clk ha => ?_, fun st clk code ha hcode => ?_,
    fun env st clk hi hw => ?_⟩
  · have : startWorker env st clk = startInternalLoop st clk := by
      simp [startWorker, hav, hw]
    rw [this, startInternalLoop_internalRunning, startInternalLoop_workerRunning]
    exact ⟨rfl, hw⟩
  · by_cases hav : env.workerAvailable = false
    · have : startWorker env st clk = startInternalLoop st clk := by
        simp [startWorker, hav, hw]
      rw [this, startInternalLoop_internalRunning, startInternalLoop_workerRunning]
      exact ⟨rfl, hw⟩
    · have : startWorker env st clk
          = startInternalLoop { st with lastHighActivityAt := clk.nowMs } clk := by
        simp [startWorker, hav, hw, hsp]
      rw [this, startInternalLoop_internalRunning, startInternalLoop_workerRunning]
      exact ⟨rfl, hw⟩
  · have : onWorkerError st clk = startInternalLoop (stopWorker st) clk := rfl
    rw [this, startInternalLoop_internalRunning, startInternalLoop_workerRunning]
    exact ⟨rfl, rfl⟩
  · have : onWorkerExit st code clk
        = startInternalLoop { st with workerRunning := false, workerAlive := false } clk := by
      simp [onWorkerExit, hcode]
    rw [this, startInternalLoop_internalRunning, startInternalLoop_workerRunning]
    exact ⟨rfl, rfl⟩
  · unfold get
    simp [hi, hw]

/-- Witness for C6 at concrete inputs: each failure scenario, instantiated. -/
theorem worker_failure_falls_back_witness :
    (startWorker ⟨false, true⟩ (createTSGen defaultOptions ⟨0, 0⟩) ⟨1, 1⟩).internalRunning
        = true ∧
    (startWorker ⟨true, false⟩ (createTSGen defaultOptions ⟨0, 0⟩) ⟨1, 1⟩).internalRunning
        = true ∧
    (onWorkerError exWorkerState ⟨8, 8⟩).internalRunning = true ∧
    (onWorkerExit exWorkerState 1 ⟨8, 8⟩).internalRunning = true ∧
    (get ⟨true, true⟩ exInternalState ⟨6, 6⟩).1 = exInternalState.cached :=
  ⟨(worker_failure_falls_back_to_internal_loop.1 ⟨false, true⟩
      (createTSGen defaultOptions ⟨0, 0⟩) ⟨1, 1⟩ rfl rfl).1,
   (worker_failure_falls_back_to_internal_loop.2.1 ⟨true, false⟩
      (createTSGen defaultOptions ⟨0, 0⟩) ⟨1, 1⟩ rfl rfl).1,
   (worker_failure_falls_back_to_internal_loop.2.2.1 exWorkerState ⟨8, 8⟩ rfl).1,
   (worker_failure_falls_back_to_internal_loop.2.2.2.1 exWorkerState ⟨8, 8⟩ 1 rfl
      (by decide)).1,
   worker_failure_falls_back_to_internal_loop.2.2.2.2 ⟨true, true⟩ exInternalState ⟨6, 6⟩
      rfl rfl⟩

/-! ## Theorems: no promotion under prefer = basic -/

/-- One `get` call under `prefer = 'basic'` with no refresher active changes
neither the configuration nor any promotion state. -/
theorem get_basic_step (env : Env) (st : GenState) (clk : ClockSample)
    (hp : st.cfg.prefer = Prefer.basic) (hi : st.internalRunning = false)
    (hw : st.workerRunning = false) :
    (get env st clk).2.cfg = st.cfg ∧
    (get env st clk).2.internalRunning = false ∧
    (get env st clk).2.workerRunning = false ∧
    (get env st clk).2.internalController = st.internalController ∧
    (get env st clk).2.workerAlive = st.workerAlive := by
  unfold get
  simp only [hi, hw, Bool.false_eq_true, if_false]
  unfold requestPerf
  simp only [hp]
  split
  · exact ⟨rfl, rfl, rfl, rfl, rfl⟩
  · exact ⟨rfl, rfl, rfl, rfl, rfl⟩

/-- Iterated `get` under `prefer = 'basic'` keeps the controller in the
direct-compute configuration. -/
theorem runGets_basic (env : Env) (clks : List ClockSample) :
    ∀ st : GenState, st.cfg.prefer = Prefer.basic →
      st.internalRunning = false → st.workerRunning = false →
      st.internalController = none → st.workerAlive = false →
      (runGets env st clks).cfg.prefer = Prefer.basic ∧
      (runGets env st clks).internalRunning = false ∧
      (runGets env st clks).workerRunning = false ∧
      (runGets env st clks).internalController = none ∧
      (runGets env st clks).workerAlive = false := by
  induction clks with
  | nil => intro st hp hi hw hc ha; exact ⟨hp, hi, hw, hc, ha⟩
  | cons c cs ih =>
    intro st hp hi hw hc ha
    obtain ⟨e1, e2, e3, e4, e5⟩ := get_basic_step env st c hp hi hw
    have : runGets env st (c :: cs) = runGets env (get env st c).2 cs := rfl
    rw [this]
    exact ih (get env st c).2 (by rw [e1]; exact hp) e2 e3 (by rw [e4]; exact hc)
      (by rw [e5]; exact ha)

/-- C5: under `prefer = 'basic'`, no sequence of `get` calls, at any call
frequency, ever starts a background refresher: the controller state after any
call trace has no internal loop, no worker, and no controller object, i.e. it
stays on the direct-compute path indefinitely. -/
theorem prefer_basic_never_promotes :
    ∀ (env : Env) (cfg0 : Config) (clk0 : ClockSample) (clks : List ClockSample),
      cfg0.prefer = Prefer.basic →
      (runGets env (createTSGen cfg0 clk0) clks).internalRunning = false ∧
      (runGets env (createTSGen cfg0 clk0) clks).workerRunning = false ∧
      (runGets env (createTSGen cfg0 clk0) clks).internalController = none ∧
      (runGets env (createTSGen cfg0 clk0) clks).workerAlive = false := by
  intro env cfg0 clk0 clks hp
  obtain ⟨_, h2, h3, h4, h5⟩ :=
    runGets_basic env clks (createTSGen cfg0 clk0) hp rfl rfl rfl rfl
  exact ⟨h2, h3, h4, h5⟩

/-- Witness for C5: three rapid calls on a basic-mode instance leave the
controller unpromoted. -/
theorem prefer_basic_never_promotes_witness :
    (runGets ⟨true, true⟩
        (createTSGen
          { thresholdCalls := 5, thresholdWindowUs := 5, perfCooldownMs := 1000,
            prefer := .basic } ⟨0, 0⟩)
        [⟨0, 10000⟩, ⟨0, 20000⟩, ⟨0, 30000⟩]).internalRunning = false ∧
    (runGets ⟨true, true⟩
        (createTSGen
          { thresholdCalls := 5, thresholdWindowUs := 5, perfCooldownMs := 1000,
            prefer := .basic } ⟨0, 0⟩)
        [⟨0, 10000⟩, ⟨0, 20000⟩, ⟨0, 30000⟩]).workerRunning = false :=
  ⟨(prefer_basic_never_promotes ⟨true, true⟩ _ ⟨0, 0⟩ _ rfl).1,
   (prefer_basic_never_promotes ⟨true, true⟩ _ ⟨0, 0⟩ _ rfl).2.1⟩

/-! ## Theorems: stopping -/

theorem stop_fields (st : GenState) :
    (stop st).internalRunning = false ∧ (stop st).workerRunning = false ∧
    (stop st).workerAlive = false ∧ (stop st).cached = st.cached ∧
    ((stop st).internalController = none ∨ (stop st).internalController = some true) := by
  unfold stop stopWorker stopInternalLoop
  rcases h : st.internalController with _ | b <;> simp [h]

/-- A refresher loop whose controller has already been told to stop (or never
existed) can never write the cache again, however many times it is resumed. -/
theorem stopped_loop_never_writes (clks : List ClockSample) :
    ∀ st : GenState, st.internalController = none ∨ st.internalController = some true →
      (clks.foldl internalLoopStep st).cached = st.cached := by
  induction clks with
  | nil => intro st _; rfl
  | cons c cs ih =>
    intro st h
    have hstep : internalLoopStep st c = st ∨
        internalLoopStep st c = { st with internalRunning := false } := by
      rcases h with h | h
      · exact Or.inl (by simp [internalLoopStep, h])
      · exact Or.inr (by simp [internalLoopStep, h])
    rw [List.foldl_cons]
    rcases hstep with h1 | h1
    · rw [h1]; exact ih st h
    · rw [h1]
      have := ih { st with internalRunning := false } (by rcases h with h | h <;> simp [h])
      simpa using this

theorem stop_stop_eq_stop (st : GenState) : stop (stop st) = stop st := by
  unfold stop stopWorker stopInternalLoop
  rcases h : st.internalController with _ | b <;> simp [h]

/-- C8: the claim fails on the code. `stop` itself clears both running flags,
drops the worker, and is idempotent, and a stop-requested internal loop never
writes again; but `worker.terminate()` makes the runtime deliver the worker's
`exit` event with code 1 after `stop` has returned, and the exit handler —
which does not distinguish deliberate termination from unexpected death —
then starts the internal loop: background execution resumes and the cache is
overwritten after `stop` returned. Evaluated at a concrete worker-promoted
state (cache seeded for millisecond 7, exit event delivered at millisecond 9). -/
theorem stop_not_quiescent_after_worker_exit :
    (stop exWorkerState).internalRunning = false ∧
    (stop exWorkerState).workerRunning = false ∧
    (stop exWorkerState).workerAlive = false ∧
    stop (stop exWorkerState) = stop exWorkerState ∧
    (onWorkerExit (stop exWorkerState) 1 ⟨9, 9⟩).internalRunning = true ∧
    (onWorkerExit (stop exWorkerState) 1 ⟨9, 9⟩).cached = toBase64Url48 ((9 : Nat) : Int) ∧
    (onWorkerExit (stop exWorkerState) 1 ⟨9, 9⟩).cached ≠ (stop exWorkerState).cached := by
  refine ⟨rfl, rfl, rfl, stop_stop_eq_stop exWorkerState, rfl, rfl, ?_⟩
  show toBase64Url48 ((9 : Nat) : Int) ≠ toBase64Url48 ((7 : Nat) : Int)
  exact (toBase64Url48_lt_toBase64Url48 (by norm_num) (by norm_num)).ne'

/-! ## Theorems: totality and validity of get -/

theorem startInternalLoop_cached (st : GenState) (clk : ClockSample) :
    (startInternalLoop st clk).cached = st.cached ∨
    (startInternalLoop st clk).cached = toBase64Url48 (clk.nowMs : Int) := by
  unfold startInternalLoop
  split
  · exact Or.inl rfl
  · exact Or.inr rfl

theorem startWorker_cached (env : Env) (st : GenState) (clk : ClockSample) :
    (startWorker env st clk).cached = st.cached ∨
    (startWorker env st clk).cached = toBase64Url48 (clk.nowMs : Int) := by
  unfold startWorker
  split
  · exact Or.inl rfl
  · split
    · exact startInternalLoop_cached st clk
    · split
      · exact Or.inl rfl
      · exact startInternalLoop_cached { st with lastHighActivityAt := clk.nowMs } clk

theorem requestPerf_cached (env : Env) (st : GenState) (clk : ClockSample) :
    (requestPerf env st clk).cached = st.cached ∨
    (requestPerf env st clk).cached = toBase64Url48 (clk.nowMs : Int) := by
  unfold requestPerf
  rcases hp : st.cfg.prefer <;> simp only [hp]
  · split
    · exact startWorker_cached env _ clk
    · exact startInternalLoop_cached _ clk
  · exact Or.inl trivial
  · exact startInternalLoop_cached _ clk
  · exact startWorker_cached env _ clk

/-- On the non-promoted path, `get` returns the directly computed encoding and
the state it leaves behind holds either the old cache or a fresh encoding. -/
theorem get_direct_out (env : Env) (st : GenState) (clk : ClockSample)
    (hw : st.workerRunning = false) (hi : st.internalRunning = false) :
    (get env st clk).1 = basicGet clk ∧
    ((get env st clk).2.cached = st.cached ∨
      (get env st clk).2.cached = toBase64Url48 (clk.nowMs : Int)) := by
  unfold get
  simp only [hw, hi, Bool.false_eq_true, if_false]
  refine ⟨trivial, ?_⟩
  split
  · exact requestPerf_cached env _ clk
  · exact Or.inl rfl

/-- On the promoted path, `get` returns the cache and leaves it unchanged. -/
theorem get_promoted_out (env : Env) (st : GenState) (clk : ClockSample)
    (h : st.workerRunning = true ∨ st.internalRunning = true) :
    (get env st clk).1 = st.cached ∧ (get env st clk).2.cached = st.cached := by
  unfold get
  by_cases hw : st.workerRunning = true
  · simp [hw]
  · have hw' : st.workerRunning = false := by simpa using hw
    have hi : st.internalRunning = true := by rcases h with h | h; exact absurd h hw; exact h
    simp [hw', hi]

/-- C3: `get` is total and always yields a valid 8-character encoded timestamp in
every controller state — promoted with a worker, promoted with the internal
loop, or direct-compute — given the invariant that the cache holds an encoder
output; it maintains that invariant, and off the promoted path it falls back to
direct computation rather than failing. -/
theorem get_total_valid_output :
    ∀ (env : Env) (st : GenState) (clk : ClockSample),
      (∃ v : Int, st.cached = toBase64Url48 v) →
      (get env st clk).1.length = 8 ∧
      (∀ c ∈ (get env st clk).1.data, c ∈ ASCII_BASE64_ALPHA.data) ∧
      (∃ v : Int, (get env st clk).2.cached = toBase64Url48 v) ∧
      (st.workerRunning = false → st.internalRunning = false →
        (get env st clk).1 = basicGet clk) := by
  intro env st clk ⟨v, hv⟩
  by_cases hprom : st.workerRunning = true ∨ st.internalRunning = true
  · obtain ⟨ho, hc⟩ := get_promoted_out env st clk hprom
    rw [ho, hc, hv]
    refine ⟨toBase64Url48_length v, toBase64Url48_mem_alpha v, ⟨v, rfl⟩, ?_⟩
    intro hw hi
    rcases hprom with h | h
    · exact absurd h (by simp [hw])
    · exact absurd h (by simp [hi])
  · push_neg at hprom
    have hw : st.workerRunning = false := by simpa using hprom.1
    have hi : st.internalRunning = false := by simpa using hprom.2
    obtain ⟨ho, hc⟩ := get_direct_out env st clk hw hi
    rw [ho]
    refine ⟨toBase64Url48_length _, toBase64Url48_mem_alpha _, ?_, fun _ _ => rfl⟩
    rcases hc with hc | hc
    · exact ⟨v, by rw [hc, hv]⟩
    · exact ⟨(clk.nowMs : Int), hc⟩

/-- Witness for C3: `get` on each of the three controller states at concrete
inputs returns an 8-character string. -/
theorem get_total_valid_output_witness :
    (get ⟨true, true⟩ exWorkerState ⟨9, 9⟩).1.length = 8 ∧
    (get ⟨true, true⟩ exInternalState ⟨6, 6⟩).1.length = 8 ∧
    (get ⟨true, true⟩ (createTSGen defaultOptions ⟨0, 0⟩) ⟨1, 1⟩).1.length = 8 :=
  ⟨(get_total_valid_output ⟨true, true⟩ exWorkerState ⟨9, 9⟩
      ⟨((7 : Nat) : Int), rfl⟩).1,
   (get_total_valid_output ⟨true, true⟩ exInternalState ⟨6, 6⟩
      ⟨((5 : Nat) : Int), rfl⟩).1,
   (get_total_valid_output ⟨true, true⟩ (createTSGen defaultOptions ⟨0, 0⟩) ⟨1, 1⟩
      ⟨((0 : Nat) : Int), rfl⟩).1⟩

/-! ## Theorems: monotonicity of the promoted path -/

/-- Each resumed refresher iteration either leaves cache and boundary marker
unchanged or overwrites both with the current millisecond (writes happen only
on a boundary change). -/
theorem internalLoopStep_cases (st : GenState) (clk : ClockSample) :
    ((internalLoopStep st clk).cached = st.cached ∧
     (internalLoopStep st clk).internalLocalLastMs = st.internalLocalLastMs) ∨
    ((internalLoopStep st clk).cached = toBase64Url48 (clk.nowMs : Int) ∧
     (internalLoopStep st clk).internalLocalLastMs = clk.nowMs) := by
  unfold internalLoopStep
  rcases h : st.internalController with _ | b
  · exact Or.inl ⟨rfl, rfl⟩
  · cases b
    · simp only [Bool.false_eq_true, if_false]
      by_cases hms : clk.nowMs = st.internalLocalLastMs
      · simp only [hms, ne_eq, not_true_eq_false, if_false]
        split
        · exact Or.inl ⟨rfl, rfl⟩
        · exact Or.inl ⟨rfl, rfl⟩
      · simp only [ne_eq, hms, not_false_eq_true, if_true]
        split
        · exact Or.inr ⟨rfl, rfl⟩
        · exact Or.inr ⟨rfl, rfl⟩
    · simp

/-- The refresher never writes inside a millisecond: if the clock still reads the
loop's last observed millisecond, the cache is untouched. -/
theorem internalLoopStep_no_write_same_ms (st : GenState) (clk : ClockSample)
    (hms : clk.nowMs = st.internalLocalLastMs) :
    (internalLoopStep st clk).cached = st.cached := by
  unfold internalLoopStep
  rcases h : st.internalController with _ | b
  · rfl
  · cases b
    · simp only [Bool.false_eq_true, if_false, hms, ne_eq, not_true_eq_false]
      split <;> rfl
    · rfl

theorem chain_le_cons_of_le {a b : Nat} {l : List Nat} (hab : a ≤ b)
    (h : List.Chain' (· ≤ ·) (b :: l)) : List.Chain' (· ≤ ·) (a :: l) := by
  cases l with
  | nil => simp
  | cons x xs =>
    rw [List.chain'_cons] at h ⊢
    exact ⟨le_trans hab h.1, h.2⟩

theorem runInternalLoop_map_head (s : GenState) (l : List ClockSample) :
    (((runInternalLoop s l).map GenState.cached).head?) = some s.cached := by
  cases l <;> simp [runInternalLoop, List.scanl]

/-- Along any non-decreasing, 48-bit-bounded clock trace, the cache values
traversed by the internal refresher form a non-decreasing sequence under
lexicographic string order. -/
theorem runInternalLoop_cached_chain (clks : List ClockSample) :
    ∀ st : GenState,
      st.cached = toBase64Url48 (st.internalLocalLastMs : Int) →
      st.internalLocalLastMs < 2 ^ 48 →
      List.Chain' (· ≤ ·) (st.internalLocalLastMs :: clks.map ClockSample.nowMs) →
      (∀ c ∈ clks, c.nowMs < 2 ^ 48) →
      List.Chain' (· ≤ ·) ((runInternalLoop st clks).map GenState.cached) := by
  induction clks with
  | nil =>
    intro st _ _ _ _
    simp [runInternalLoop, List.scanl]
  | cons c cs ih =>
    intro st hcache hlt hchain hbound
    rw [List.map_cons, List.chain'_cons] at hchain
    obtain ⟨hle, hchain'⟩ := hchain
    have hcb : c.nowMs < 2 ^ 48 := hbound c (List.mem_cons_self c cs)
    have hbound' : ∀ u ∈ cs, u.nowMs < 2 ^ 48 := fun u hu => hbound u (List.mem_cons_of_mem _ hu)
    have hgoal : (runInternalLoop st (c :: cs)).map GenState.cached
        = st.cached :: (runInternalLoop (internalLoopStep st c) cs).map GenState.cached := by
      simp [runInternalLoop, List.scanl]
    rw [hgoal, List.chain'_cons']
    rcases internalLoopStep_cases st c with ⟨e1, e2⟩ | ⟨e1, e2⟩
    · refine ⟨?_, ih (internalLoopStep st c) (by rw [e1, e2]; exact hcache)
        (by rw [e2]; exact hlt) (by rw [e2]; exact chain_le_cons_of_le hle hchain') hbound'⟩
      intro y hy
      rw [runInternalLoop_map_head] at hy
      have : y = (internalLoopStep st c).cached := by
        simpa using hy.symm
      rw [this, e1]
    · refine ⟨?_, ih (internalLoopStep st c) (by rw [e1, e2]) (by rw [e2]; exact hcb)
        (by rw [e2]; exact hchain') hbound'⟩
      intro y hy
      rw [runInternalLoop_map_head] at hy
      have : y = (internalLoopStep st c).cached := by
        simpa using hy.symm
      rw [this, e1, hcache]
      exact toBase64Url48_le_toBase64Url48 hle hcb

/-- The worker loop posts a message only on a millisecond-boundary change, and
every message it posts encodes a later-or-equal millisecond. -/
theorem workerLoopStep_monotone (lastMs nowMs : Nat)
    (hle : lastMs ≤ nowMs) (hlt : nowMs < 2 ^ 48) :
    (nowMs = lastMs → workerLoopStep lastMs nowMs = (lastMs, none)) ∧
    (∀ s ∈ (workerLoopStep lastMs nowMs).2, workerToBase64Url48 (lastMs : Int) ≤ s) := by
  constructor
  · intro h
    simp [workerLoopStep, h]
  · intro s hs
    unfold workerLoopStep at hs
    by_cases h : nowMs = lastMs
    · simp [h] at hs
    · simp only [ne_eq, h, not_false_eq_true, if_true, Option.mem_def,
        Option.some_inj] at hs
      rw [← hs, workerToBase64Url48_eq_main, workerToBase64Url48_eq_main]
      exact toBase64Url48_le_toBase64Url48 hle hlt

/-- C7: on the promoted path the cache is only ever overwritten with the
encoding of a later-or-equal millisecond (the refresher writes only on a
millisecond-boundary change), so along any non-decreasing 48-bit clock trace
the cache values — which are exactly what `get` returns while promoted — form a
non-decreasing sequence under lexicographic comparison, and the worker loop's
messages likewise encode later-or-equal milliseconds. -/
theorem promoted_path_monotone :
    (∀ (st : GenState) (clks : List ClockSample),
      st.cached = toBase64Url48 (st.internalLocalLastMs : Int) →
      st.internalLocalLastMs < 2 ^ 48 →
      List.Chain' (· ≤ ·) (st.internalLocalLastMs :: clks.map ClockSample.nowMs) →
      (∀ c ∈ clks, c.nowMs < 2 ^ 48) →
      List.Chain' (· ≤ ·) ((runInternalLoop st clks).map GenState.cached)) ∧
    (∀ st clk, clk.nowMs = st.internalLocalLastMs →
      (internalLoopStep st clk).cached = st.cached) ∧
    (∀ lastMs nowMs : Nat, lastMs ≤ nowMs → nowMs < 2 ^ 48 →
      ∀ s ∈ (workerLoopStep lastMs nowMs).2, workerToBase64Url48 (lastMs : Int) ≤ s) ∧
    (∀ env st clk, st.workerRunning = true ∨ st.internalRunning = true →
      (get env st clk).1 = st.cached) :=
  ⟨fun st clks => runInternalLoop_cached_chain clks st,
   internalLoopStep_no_write_same_ms,
   fun lastMs nowMs hle hlt => (workerLoopStep_monotone lastMs nowMs hle hlt).2,
   fun env st clk h => (get_promoted_out env st clk h).1⟩

/-- Witness for C7 at concrete inputs: a two-step clock trace 5, 6 from the
promoted internal state, a same-millisecond no-write, a worker message, and a
promoted read. -/
theorem promoted_path_monotone_witness :
    List.Chain' (· ≤ ·)
      ((runInternalLoop exInternalState [⟨5, 0⟩, ⟨6, 0⟩]).map GenState.cached) ∧
    (internalLoopStep exInternalState ⟨5, 0⟩).cached = exInternalState.cached ∧
    (∀ s ∈ (workerLoopStep 5 6).2, workerToBase64Url48 ((5 : Nat) : Int) ≤ s) ∧
    (get ⟨true, true⟩ exWorkerState ⟨9, 9⟩).1 = exWorkerState.cached :=
  ⟨promoted_path_monotone.1 exInternalState [⟨5, 0⟩, ⟨6, 0⟩] rfl (by norm_num [exInternalState])
      (by simp [exInternalState])
      (by intro c hc; fin_cases hc <;> norm_num),
   promoted_path_monotone.2.1 exInternalState ⟨5, 0⟩ rfl,
   promoted_path_monotone.2.2.1 5 6 (by norm_num) (by norm_num),
   promoted_path_monotone.2.2.2 ⟨true, true⟩ exWorkerState ⟨9, 9⟩ (Or.inl rfl)⟩

end TSGen
